import Mathlib

/-!
Verification of the `count-loc` repository: a shallow embedding of the
logging component (`logger.go`), the output/reporting component
(`output.go`), and — modelled from the specification, since the
corresponding source files are not part of the provided sources — the
line-classification / counting / aggregation core, together with proofs
of the specification claims.

Go side effects are embedded as explicit state passing: a `Logger` value
carries the lines written so far and the tallies, and each printing
function returns the list of lines it emits.  Machine integers hold
non-negative counts throughout, so they are embedded as `Nat`.
-/

/-! ### Logger (embedding of `logger.go`) -/

/-- Log level constants, `iota`-numbered as in the source. -/
def LogLevelDebug : Nat := 0

/-- Informational messages. -/
def LogLevelInfo : Nat := 1

/-- Warning messages. -/
def LogLevelWarn : Nat := 2

/-- Error messages. -/
def LogLevelError : Nat := 3

/-- Silent level: suppresses all log output. -/
def LogLevelSilent : Nat := 4

/-- Observable state of a `Logger`: its level, the lines written to the
two writers (`out` and `errOut`), and the two tallies.  The mutex of the
Go struct serialises access and has no observable effect on a single
call, so it is not represented. -/
structure Logger where
  level : Nat
  outLines : List String
  errLines : List String
  errorCount : Nat
  warnCount : Nat
deriving DecidableEq

/-- Embedding of `NewLogger`: fresh logger at the given level. -/
def NewLogger (level : Nat) : Logger :=
  { level := level, outLines := [], errLines := [], errorCount := 0, warnCount := 0 }

/-- Embedding of `Logger.SetLevel`. -/
def Logger.SetLevel (l : Logger) (level : Nat) : Logger :=
  { l with level := level }

/-- Embedding of `Logger.Debug`: prints to `out` when `level <= LogLevelDebug`. -/
def Logger.Debug (l : Logger) (msg : String) : Logger :=
  if l.level ≤ LogLevelDebug then
    { l with outLines := l.outLines ++ ["[DEBUG] " ++ msg] }
  else l

/-- Embedding of `Logger.Info`: prints to `out` when `level <= LogLevelInfo`. -/
def Logger.Info (l : Logger) (msg : String) : Logger :=
  if l.level ≤ LogLevelInfo then
    { l with outLines := l.outLines ++ ["[INFO] " ++ msg] }
  else l

/-- Embedding of `Logger.Warn`: when `level <= LogLevelWarn`, increments
`warnCount` and prints to `out`. -/
def Logger.Warn (l : Logger) (msg : String) : Logger :=
  if l.level ≤ LogLevelWarn then
    { l with warnCount := l.warnCount + 1,
             outLines := l.outLines ++ ["[WARN] " ++ msg] }
  else l

/-- Embedding of `Logger.Error`: when `level <= LogLevelError`, increments
`errorCount` and prints to `errOut`. -/
def Logger.Error (l : Logger) (msg : String) : Logger :=
  if l.level ≤ LogLevelError then
    { l with errorCount := l.errorCount + 1,
             errLines := l.errLines ++ ["[ERROR] " ++ msg] }
  else l

/-- Embedding of `GetErrorCount`. -/
def Logger.GetErrorCount (l : Logger) : Nat := l.errorCount

/-- Embedding of `GetWarnCount`. -/
def Logger.GetWarnCount (l : Logger) : Nat := l.warnCount

/-- A Go `error` value as observed by the logging component: its message
(the `%v` rendering) and whether `os.IsPermission` holds of it. -/
structure GoError where
  msg : String
  isPerm : Bool
deriving DecidableEq

/-- Embedding of `IsPermissionError` (`os.IsPermission` on the error). -/
def IsPermissionError (e : GoError) : Bool := e.isPerm

/-- Package-level `LogWarn` acting on the (threaded) default logger. -/
def LogWarn (l : Logger) (msg : String) : Logger := l.Warn msg

/-- Package-level `LogError` acting on the (threaded) default logger. -/
def LogError (l : Logger) (msg : String) : Logger := l.Error msg

/-- Embedding of `LogFileError`: permission errors are logged as warnings,
all other errors as errors. -/
def LogFileError (l : Logger) (filePath : String) (err : GoError) : Logger :=
  if IsPermissionError err then
    LogWarn l ("Permission denied: " ++ filePath)
  else
    LogError l ("Failed to process file " ++ filePath ++ ": " ++ err.msg)

/-- Embedding of `LogDirectoryError`: permission errors are logged as
warnings, all other errors as errors. -/
def LogDirectoryError (l : Logger) (dirPath : String) (err : GoError) : Logger :=
  if IsPermissionError err then
    LogWarn l ("Permission denied for directory: " ++ dirPath)
  else
    LogError l ("Failed to process directory " ++ dirPath ++ ": " ++ err.msg)

/-! ### Decimal rendering (embedding of `fmt.Sprintf` with `%d`) -/

/-- Decimal digit character for a value below ten. -/
def digitChar (d : Nat) : Char :=
  match d with
  | 0 => '0' | 1 => '1' | 2 => '2' | 3 => '3' | 4 => '4'
  | 5 => '5' | 6 => '6' | 7 => '7' | 8 => '8' | _ => '9'

/-- Fuelled decimal expansion, most significant digit first.  The fuel is
only a structural-termination device; `decRep` supplies enough of it. -/
def decRepAux : Nat → Nat → List Char
  | 0, _ => []
  | fuel + 1, n =>
    if n < 10 then [digitChar n]
    else decRepAux fuel (n / 10) ++ [digitChar (n % 10)]

/-- Decimal representation of a natural number as characters, the
embedding of `fmt.Sprintf` with verb `%d` on a count. -/
def decRep (n : Nat) : List Char := decRepAux (n + 1) n

/-- Decimal representation as a string. -/
def decRepStr (n : Nat) : String := String.mk (decRep n)

/-! ### Output tables (embedding of `output.go`) -/

/-- Table column widths, from the constant block of the source. -/
def colLanguage : Nat := 20

/-- Width of the files column. -/
def colFiles : Nat := 10

/-- Width of the blank column. -/
def colBlank : Nat := 12

/-- Width of the comment column. -/
def colComment : Nat := 12

/-- Width of the code column. -/
def colCode : Nat := 12

/-- Width of the total column. -/
def colTotal : Nat := 12

/-- Per-language running statistics (`LanguageStats`), as used by the
output functions and filled in by the aggregator. -/
structure LanguageStats where
  Language : String
  FileCount : Nat
  BlankLines : Nat
  CommentLines : Nat
  CodeLines : Nat
  TotalLines : Nat
deriving DecidableEq

/-- Left padding to width `w`, the embedding of `%*d` and `%*s`. -/
def padLeft (w : Nat) (s : String) : String :=
  String.mk (List.replicate (w - s.length) ' ') ++ s

/-- Right padding to width `w`, the embedding of `%-*s`. -/
def padRight (w : Nat) (s : String) : String :=
  s ++ String.mk (List.replicate (w - s.length) ' ')

/-- Embedding of `printSeparator`: one line of dashes spanning the table. -/
def printSeparatorLine : String :=
  String.mk (List.replicate (colLanguage + colFiles + colBlank + colComment + colCode + colTotal + 5) '-')

/-- Embedding of `printRow`: one table row, with the language name
truncated to the column width. -/
def printRow (language : String) (files blank comment code total : Nat) : String :=
  let language := if colLanguage < language.length
    then language.take (colLanguage - 3) ++ "..." else language
  padRight colLanguage language ++ " " ++
    padLeft colFiles (decRepStr files) ++ " " ++
    padLeft colBlank (decRepStr blank) ++ " " ++
    padLeft colComment (decRepStr comment) ++ " " ++
    padLeft colCode (decRepStr code) ++ " " ++
    padLeft colTotal (decRepStr total)

/-- Embedding of `printHeader`: blank line, separator, column titles,
separator. -/
def printHeader : List String :=
  ["", printSeparatorLine,
   padRight colLanguage "Language" ++ " " ++
     padLeft colFiles "Files" ++ " " ++
     padLeft colBlank "Blank" ++ " " ++
     padLeft colComment "Comment" ++ " " ++
     padLeft colCode "Code" ++ " " ++
     padLeft colTotal "Total",
   printSeparatorLine]

/-- Embedding of `printFooter`: summary block; the `Errors` line is only
printed when `errorCount > 0`. -/
def printFooter (processedFiles skippedFiles errorCount : Nat) : List String :=
  [printSeparatorLine, "", "Summary:",
   "  Files processed: " ++ decRepStr processedFiles,
   "  Files skipped:   " ++ decRepStr skippedFiles] ++
  (if 0 < errorCount then ["  Errors:          " ++ decRepStr errorCount] else []) ++
  [""]

/-- The Go comparison closure of `sortLanguagesByCode`:
`langStats[langs[i]].CodeLines > langStats[langs[j]].CodeLines`. -/
def lessByCode (a b : LanguageStats) : Bool := decide (b.CodeLines < a.CodeLines)

/-- The inlined comparison closure of `PrintByFiles`:
`langStats[langs[i]].FileCount > langStats[langs[j]].FileCount`. -/
def lessByFiles (a b : LanguageStats) : Bool := decide (b.FileCount < a.FileCount)

/-- Embedding of `sortLanguagesByCode`.  The Go function sorts the slice
of map keys with `sort.Slice` under the `lessByCode` order and the rows
are then printed by key lookup; here the map's entries (in arbitrary
iteration order) are sorted directly, `mergeSort` standing in for
`sort.Slice` (both produce some reordering that is sorted under the
comparison). -/
def sortLanguagesByCode (entries : List LanguageStats) : List LanguageStats :=
  entries.mergeSort (fun a b => !(lessByCode b a))

/-- The inlined sort of `PrintByFiles`, by descending file count. -/
def sortByFilesList (entries : List LanguageStats) : List LanguageStats :=
  entries.mergeSort (fun a b => !(lessByFiles b a))

/-- Row for one `LanguageStats` entry, as printed by `printRow`. -/
def statsRow (s : LanguageStats) : String :=
  printRow s.Language s.FileCount s.BlankLines s.CommentLines s.CodeLines s.TotalLines

/-- Embedding of `PrintResults`: header, per-language rows sorted by
descending code lines, separator, total row, footer. -/
def PrintResults (entries : List LanguageStats) (total : LanguageStats)
    (processedFiles skippedFiles errorCount : Nat) : List String :=
  printHeader ++
  (sortLanguagesByCode entries).map statsRow ++
  [printSeparatorLine] ++
  [printRow "Total" total.FileCount total.BlankLines total.CommentLines total.CodeLines total.TotalLines] ++
  printFooter processedFiles skippedFiles errorCount

/-- Embedding of the loop body of `PrintErrors`: `i` is the loop index;
once it reaches ten, the single summary line is printed and the loop
breaks.  `total` is the length of the full error list. -/
def printErrorsLoop (total : Nat) : Nat → List String → List String
  | _, [] => []
  | i, e :: rest =>
    if 10 ≤ i then ["  ... and " ++ decRepStr (total - 10) ++ " more errors"]
    else ("  - " ++ e) :: printErrorsLoop total (i + 1) rest

/-- Embedding of `PrintErrors`: nothing for an empty list, otherwise a
header, at most ten detailed entries, an overflow summary line, and a
closing blank line.  Each error is its `%v` rendering. -/
def PrintErrors (errors : List String) : List String :=
  if errors.length = 0 then []
  else ["", "Errors encountered:"] ++ printErrorsLoop errors.length 0 errors ++ [""]

/-- Embedding of `PrintCompact`. -/
def PrintCompact (total : LanguageStats) : List String :=
  ["Files: " ++ decRepStr total.FileCount ++ " | Blank: " ++ decRepStr total.BlankLines ++
   " | Comment: " ++ decRepStr total.CommentLines ++ " | Code: " ++ decRepStr total.CodeLines ++
   " | Total: " ++ decRepStr total.TotalLines]

/-- JSON object line for one language, braces written as escapes. -/
def jsonRow (s : LanguageStats) (comma : String) : String :=
  "    \"" ++ s.Language ++ "\": \x7b\"files\": " ++ decRepStr s.FileCount ++
  ", \"blank\": " ++ decRepStr s.BlankLines ++
  ", \"comment\": " ++ decRepStr s.CommentLines ++
  ", \"code\": " ++ decRepStr s.CodeLines ++
  ", \"total\": " ++ decRepStr s.TotalLines ++ "\x7d" ++ comma

/-- Embedding of `PrintJSON`: language entries sorted by descending code
lines, a trailing comma on all but the last, then the grand total. -/
def PrintJSON (entries : List LanguageStats) (total : LanguageStats) : List String :=
  let sorted := sortLanguagesByCode entries
  ["\x7b", "  \"languages\": \x7b"] ++
  (sorted.enum.map (fun p =>
    jsonRow p.2 (if p.1 = sorted.length - 1 then "" else ","))) ++
  ["  \x7d,",
   "  \"total\": \x7b\"files\": " ++ decRepStr total.FileCount ++
     ", \"blank\": " ++ decRepStr total.BlankLines ++
     ", \"comment\": " ++ decRepStr total.CommentLines ++
     ", \"code\": " ++ decRepStr total.CodeLines ++
     ", \"total\": " ++ decRepStr total.TotalLines ++ "\x7d",
   "\x7d"]

/-- Embedding of `PrintByFiles`: like `PrintResults` but with the rows
sorted by descending file count. -/
def PrintByFiles (entries : List LanguageStats) (total : LanguageStats)
    (processedFiles skippedFiles errorCount : Nat) : List String :=
  printHeader ++
  (sortByFilesList entries).map statsRow ++
  [printSeparatorLine] ++
  [printRow "Total" total.FileCount total.BlankLines total.CommentLines total.CodeLines total.TotalLines] ++
  printFooter processedFiles skippedFiles errorCount

/-- Embedding of the comma-inserting loop of `FormatNumber`: `total` is
the length of the digit string and `i` the index of the current
character; a comma is written before the character when `i > 0` and
`(total - i) % 3 == 0`. -/
def insertCommasAux (total : Nat) : Nat → List Char → List Char
  | _, [] => []
  | i, c :: cs =>
    (if 0 < i ∧ (total - i) % 3 = 0 then [','] else []) ++
    c :: insertCommasAux total (i + 1) cs

/-- Comma insertion over a whole digit string. -/
def insertCommas (s : List Char) : List Char := insertCommasAux s.length 0 s

/-- Embedding of `FormatNumber`: numbers below `1000` are printed plainly,
larger ones with thousands separators. -/
def FormatNumber (n : Nat) : String :=
  if n < 1000 then String.mk (decRep n)
  else String.mk (insertCommas (decRep n))

/-- Formatted row of `PrintResultsFormatted`. -/
def formattedRow (s : LanguageStats) : String :=
  let language := if colLanguage < s.Language.length
    then s.Language.take (colLanguage - 3) ++ "..." else s.Language
  padRight colLanguage language ++ " " ++
    padLeft colFiles (FormatNumber s.FileCount) ++ " " ++
    padLeft colBlank (FormatNumber s.BlankLines) ++ " " ++
    padLeft colComment (FormatNumber s.CommentLines) ++ " " ++
    padLeft colCode (FormatNumber s.CodeLines) ++ " " ++
    padLeft colTotal (FormatNumber s.TotalLines)

/-- Embedding of `PrintResultsFormatted`: as `PrintResults`, but the
numbers go through `FormatNumber`. -/
def PrintResultsFormatted (entries : List LanguageStats) (total : LanguageStats)
    (processedFiles skippedFiles errorCount : Nat) : List String :=
  printHeader ++
  (sortLanguagesByCode entries).map formattedRow ++
  [printSeparatorLine] ++
  [padRight colLanguage "Total" ++ " " ++
     padLeft colFiles (FormatNumber total.FileCount) ++ " " ++
     padLeft colBlank (FormatNumber total.BlankLines) ++ " " ++
     padLeft colComment (FormatNumber total.CommentLines) ++ " " ++
     padLeft colCode (FormatNumber total.CodeLines) ++ " " ++
     padLeft colTotal (FormatNumber total.TotalLines)] ++
  printFooter processedFiles skippedFiles errorCount

/-! ### Line-classification core (modelled from the spec)

The classifier, file counter, worker pool and aggregator live in source
files that are not among the provided ones; they are modelled from the
specification (sections 3, 4.2, 4.3, 4.5, 5). -/

/-- Modelled from the spec: `LanguageDescriptor` of the data model —
name, single-line comment markers, ordered block-comment delimiter
pairs, nestability, string quotes and escape character (missing source:
the language rule table). -/
structure LanguageDescriptor where
  name : String
  singleLineMarkers : List (List Char)
  blockDelimiters : List (List Char × List Char)
  nestable : Bool
  stringQuotes : List Char
  escapeChar : Option Char
deriving DecidableEq

/-- Modelled from the spec: per-file transient `ClassifierState` — block
comment state (depth, for rule 4 nesting; `0` means outside), the active
close delimiter, and string state (missing source: the line
classifier). -/
structure ClassifierState where
  blockDepth : Nat
  activeClose : Option (List Char)
  inString : Bool
  stringQuote : Option Char
deriving DecidableEq

/-- Classification of one physical line. -/
inductive LineClass where
  | Blank
  | Comment
  | Code
deriving DecidableEq

/-- First block delimiter pair whose open token starts the given text. -/
def findBlockOpen (d : LanguageDescriptor) (l : List Char) : Option (List Char × List Char) :=
  d.blockDelimiters.find? (fun p => !p.1.isEmpty && p.1.isPrefixOf l)

/-- Whether some single-line comment marker starts the given text. -/
def hasSingleMarker (d : LanguageDescriptor) (l : List Char) : Bool :=
  d.singleLineMarkers.any (fun m => !m.isEmpty && m.isPrefixOf l)

/-- Modelled from the spec: the left-to-right scan of one line (rules 2–4
of the line classifier, missing source).  Returns whether comment
content was seen on the line together with the state carried to the next
line.  Inside a block comment it looks for the active close delimiter
(counting nested opens when the language nests) and re-scans the
remainder under normal rules; inside a string region comment markers are
inert and the escape character protects the next character; otherwise
the first single-line marker makes the rest of the line comment, the
first block open enters block-comment state, and a string quote opens a
string region.  The fuel argument (the line length at the top call) is a
structural-termination device: every step consumes at least one
character. -/
def scanLine (d : LanguageDescriptor) : Nat → ClassifierState → Bool → List Char → Bool × ClassifierState
  | 0, st, sawC, _ => (sawC, st)
  | _ + 1, st, sawC, [] => (sawC, st)
  | fuel + 1, st, sawC, c :: rest =>
    if 0 < st.blockDepth then
      match st.activeClose with
      | some close =>
        if !close.isEmpty && close.isPrefixOf (c :: rest) then
          let st' := if st.blockDepth = 1
            then { st with blockDepth := 0, activeClose := none }
            else { st with blockDepth := st.blockDepth - 1 }
          scanLine d fuel st' true (rest.drop (close.length - 1))
        else
          match (if d.nestable then findBlockOpen d (c :: rest) else none) with
          | some p =>
            scanLine d fuel { st with blockDepth := st.blockDepth + 1 } true (rest.drop (p.1.length - 1))
          | none => scanLine d fuel st true rest
      | none => scanLine d fuel st true rest
    else if st.inString then
      if d.escapeChar = some c then
        match rest with
        | [] => (sawC, st)
        | _ :: rest' => scanLine d fuel st sawC rest'
      else if st.stringQuote = some c then
        scanLine d fuel { st with inString := false, stringQuote := none } sawC rest
      else scanLine d fuel st sawC rest
    else
      if d.escapeChar = some c then
        match rest with
        | [] => (sawC, st)
        | _ :: rest' => scanLine d fuel st sawC rest'
      else if hasSingleMarker d (c :: rest) then
        (true, st)
      else
        match findBlockOpen d (c :: rest) with
        | some p =>
          scanLine d fuel { st with blockDepth := 1, activeClose := some p.2 } true (rest.drop (p.1.length - 1))
        | none =>
          if c ∈ d.stringQuotes then
            scanLine d fuel { st with inString := true, stringQuote := some c } sawC rest
          else scanLine d fuel st sawC rest

/-- Modelled from the spec: classification of one line (line classifier,
missing source).  Rule 1: a whitespace-only line is Blank unless inside
a block comment, in which case it is Comment.  Otherwise the line is
scanned; it is Comment when it carries any comment content (entered
inside a block comment, or a marker was triggered — the
comment-dominance rule), else Code. -/
def classifyLine (d : LanguageDescriptor) (st : ClassifierState) (line : List Char) :
    LineClass × ClassifierState :=
  if line.all Char.isWhitespace then
    (if 0 < st.blockDepth then LineClass.Comment else LineClass.Blank, st)
  else
    let r := scanLine d line.length st (0 < st.blockDepth) line
    (if r.1 then LineClass.Comment else LineClass.Code, r.2)

/-- Initial classifier state at the start of a file. -/
def initialState : ClassifierState :=
  { blockDepth := 0, activeClose := none, inString := false, stringQuote := none }

/-- Modelled from the spec: per-file statistics record (`FileRecord` of
the data model, missing source: the file counter). -/
structure FileRecord where
  path : String
  language : String
  blankLines : Nat
  commentLines : Nat
  codeLines : Nat
  totalLines : Nat
deriving DecidableEq

/-- Modelled from the spec: the counting loop of the file counter
(missing source) — classify each line in order, carrying the state, and
accumulate the `(blank, comment, code)` totals. -/
def countLinesFrom (d : LanguageDescriptor) : ClassifierState → List (List Char) → Nat × Nat × Nat
  | _, [] => (0, 0, 0)
  | st, line :: rest =>
    let r := classifyLine d st line
    let acc := countLinesFrom d r.2 rest
    match r.1 with
    | LineClass.Blank => (acc.1 + 1, acc.2.1, acc.2.2)
    | LineClass.Comment => (acc.1, acc.2.1 + 1, acc.2.2)
    | LineClass.Code => (acc.1, acc.2.1, acc.2.2 + 1)

/-- Modelled from the spec: `count(path, descriptor)` of the file counter
(missing source) — drives the classifier over all lines and returns a
record whose `totalLines` is the number of lines read. -/
def countFile (d : LanguageDescriptor) (path : String) (lines : List (List Char)) : FileRecord :=
  let acc := countLinesFrom d initialState lines
  { path := path, language := d.name,
    blankLines := acc.1, commentLines := acc.2.1, codeLines := acc.2.2,
    totalLines := lines.length }

/-- Fresh, all-zero statistics bucket for a language. -/
def emptyStats (lang : String) : LanguageStats :=
  { Language := lang, FileCount := 0, BlankLines := 0,
    CommentLines := 0, CodeLines := 0, TotalLines := 0 }

/-- Modelled from the spec: the aggregator's merge of one `FileRecord`
into a statistics bucket (missing source: the aggregator) — one more
file, and the four line sums added. -/
def mergeRecord (s : LanguageStats) (r : FileRecord) : LanguageStats :=
  { s with FileCount := s.FileCount + 1,
           BlankLines := s.BlankLines + r.blankLines,
           CommentLines := s.CommentLines + r.commentLines,
           CodeLines := s.CodeLines + r.codeLines,
           TotalLines := s.TotalLines + r.totalLines }

/-- Modelled from the spec: aggregation of a stream of records, in
arrival order, into one bucket named `lang` (missing source: the
aggregator). -/
def aggregate (lang : String) (recs : List FileRecord) : LanguageStats :=
  recs.foldl mergeRecord (emptyStats lang)

/-- The record-level sum invariant of the data model. -/
def recordInv (r : FileRecord) : Prop :=
  r.totalLines = r.blankLines + r.commentLines + r.codeLines

/-- The aggregate-level sum invariant of the data model. -/
def statsInv (s : LanguageStats) : Prop :=
  s.TotalLines = s.BlankLines + s.CommentLines + s.CodeLines

/-- A C-like descriptor (the one of the spec's testable properties):
`//` line comments, `/* ... */` non-nesting block comments, double-quoted
strings, backslash escape. -/
def cLike : LanguageDescriptor :=
  { name := "C",
    singleLineMarkers := [['/', '/']],
    blockDelimiters := [(['/', '*'], ['*', '/'])],
    nestable := false,
    stringQuotes := ['"'],
    escapeChar := some '\\' }

/-! ### Claim C1 -/

/-- C1: recording a file or directory processing failure distinguishes
permission errors from other errors — when the logger emits at warning
level (as the default, info-level logger does), `LogFileError` and
`LogDirectoryError` log a warning and bump the warning tally on a
permission error, and log an error and bump the error tally otherwise;
both calls return normally with the failure recorded. -/
theorem logFileError_distinguishes_permission (l : Logger) (p q : String) (e : GoError)
    (hl : l.level ≤ LogLevelWarn) :
    (IsPermissionError e = true →
      (LogFileError l p e).warnCount = l.warnCount + 1 ∧
      (LogFileError l p e).errorCount = l.errorCount ∧
      (LogFileError l p e).outLines = l.outLines ++ ["[WARN] " ++ ("Permission denied: " ++ p)] ∧
      (LogDirectoryError l q e).warnCount = l.warnCount + 1 ∧
      (LogDirectoryError l q e).errorCount = l.errorCount) ∧
    (IsPermissionError e = false →
      (LogFileError l p e).errorCount = l.errorCount + 1 ∧
      (LogFileError l p e).warnCount = l.warnCount ∧
      (LogFileError l p e).errLines =
        l.errLines ++ ["[ERROR] " ++ ("Failed to process file " ++ p ++ ": " ++ e.msg)] ∧
      (LogDirectoryError l q e).errorCount = l.errorCount + 1 ∧
      (LogDirectoryError l q e).warnCount = l.warnCount) := by
  have hl3 : l.level ≤ LogLevelError := by
    unfold LogLevelWarn at hl
    unfold LogLevelError
    omega
  constructor
  · intro h
    simp [LogFileError, LogDirectoryError, LogWarn, Logger.Warn, h, hl]
  · intro h
    simp [LogFileError, LogDirectoryError, LogError, Logger.Error, h, hl3]

/-- Witness for C1 at the default logger (info level) and a concrete
permission error. -/
theorem logFileError_distinguishes_permission_witness :
    (NewLogger LogLevelInfo).level ≤ LogLevelWarn ∧
    (LogFileError (NewLogger LogLevelInfo) "a.go" ⟨"open a.go: permission denied", true⟩).warnCount = 1 ∧
    (LogFileError (NewLogger LogLevelInfo) "b.go" ⟨"disk failure", false⟩).errorCount = 1 := by
  have h1 := logFileError_distinguishes_permission (NewLogger LogLevelInfo) "a.go" "d"
    ⟨"open a.go: permission denied", true⟩ (by decide)
  have h2 := logFileError_distinguishes_permission (NewLogger LogLevelInfo) "b.go" "d"
    ⟨"disk failure", false⟩ (by decide)
  refine ⟨by decide, ?_, ?_⟩
  · have := (h1.1 rfl).1
    simpa [NewLogger] using this
  · have := (h2.2 rfl).1
    simpa [NewLogger] using this

/-! ### Claim C8 -/

/-- C8: a logging call emits its message exactly when the configured
level is at most the call's severity; with the level set to
`LogLevelSilent` no call of any severity changes the logger; and the
warning and error tallies move exactly with emission, so `GetWarnCount`
and `GetErrorCount` count emitted messages, not calls. -/
theorem logger_level_gating (l : Logger) (m : String) :
    (l.Debug m).outLines = l.outLines ++ (if l.level ≤ LogLevelDebug then ["[DEBUG] " ++ m] else []) ∧
    (l.Info m).outLines = l.outLines ++ (if l.level ≤ LogLevelInfo then ["[INFO] " ++ m] else []) ∧
    (l.Warn m).outLines = l.outLines ++ (if l.level ≤ LogLevelWarn then ["[WARN] " ++ m] else []) ∧
    (l.Error m).errLines = l.errLines ++ (if l.level ≤ LogLevelError then ["[ERROR] " ++ m] else []) ∧
    (l.SetLevel LogLevelSilent).Debug m = l.SetLevel LogLevelSilent ∧
    (l.SetLevel LogLevelSilent).Info m = l.SetLevel LogLevelSilent ∧
    (l.SetLevel LogLevelSilent).Warn m = l.SetLevel LogLevelSilent ∧
    (l.SetLevel LogLevelSilent).Error m = l.SetLevel LogLevelSilent ∧
    (l.Warn m).GetWarnCount = l.GetWarnCount + (if l.level ≤ LogLevelWarn then 1 else 0) ∧
    (l.Error m).GetErrorCount = l.GetErrorCount + (if l.level ≤ LogLevelError then 1 else 0) ∧
    (l.Debug m).warnCount = l.warnCount ∧ (l.Debug m).errorCount = l.errorCount ∧
    (l.Info m).warnCount = l.warnCount ∧ (l.Info m).errorCount = l.errorCount ∧
    (l.Warn m).errorCount = l.errorCount ∧ (l.Error m).warnCount = l.warnCount := by
  refine ⟨?_, ?_, ?_, ?_, ?_, ?_, ?_, ?_, ?_, ?_, ?_, ?_, ?_, ?_, ?_, ?_⟩ <;>
    simp only [Logger.Debug, Logger.Info, Logger.Warn, Logger.Error, Logger.SetLevel,
      Logger.GetWarnCount, Logger.GetErrorCount, LogLevelDebug, LogLevelInfo,
      LogLevelWarn, LogLevelError, LogLevelSilent] <;>
    split <;> simp_all

/-! ### Claim C2 (corrected) -/

/-- C2 counterexample: with zero errors the footer omits the error count
entirely — the output of `printFooter 5 3 0` is exactly the separator,
the summary heading, the processed and skipped lines and a blank line,
and no line of it starts with the `Errors` label. -/
theorem printFooter_zero_errors_counterexample :
    printFooter 5 3 0 =
      [printSeparatorLine, "", "Summary:", "  Files processed: 5", "  Files skipped:   3", ""] ∧
    (printFooter 5 3 0).any (fun x => List.isPrefixOf "  Errors:".data x.data) = false := by
  constructor
  · decide
  · decide

/-- C2 (amended): the footer always prints the processed-files and
skipped-files counts, but the error count appears exactly when it is
positive — with zero errors the `Errors` line is omitted. -/
theorem printFooter_amended (p s e : Nat) :
    "  Files processed: " ++ decRepStr p ∈ printFooter p s e ∧
    "  Files skipped:   " ++ decRepStr s ∈ printFooter p s e ∧
    (printFooter p s e).any (fun x => List.isPrefixOf "  Errors:".data x.data) = decide (0 < e) := by
  have hsep : List.isPrefixOf "  Errors:".data printSeparatorLine.data = false := rfl
  have hempty : List.isPrefixOf "  Errors:".data ("" : String).data = false := rfl
  have hsum : List.isPrefixOf "  Errors:".data ("Summary:" : String).data = false := rfl
  have hproc : List.isPrefixOf "  Errors:".data ("  Files processed: " ++ decRepStr p).data = false := rfl
  have hskip : List.isPrefixOf "  Errors:".data ("  Files skipped:   " ++ decRepStr s).data = false := rfl
  have herr : List.isPrefixOf "  Errors:".data ("  Errors:          " ++ decRepStr e).data = true := rfl
  refine ⟨by simp [printFooter], by simp [printFooter], ?_⟩
  by_cases he : 0 < e
  · rw [show decide (0 < e) = true by simpa using he]
    simp only [printFooter, if_pos he, List.any_append, List.any_cons, List.any_nil]
    rw [hsep, hempty, hsum, hproc, hskip, herr]
    rfl
  · rw [show decide (0 < e) = false by simpa using he]
    simp only [printFooter, if_neg he, List.any_append, List.any_cons, List.any_nil]
    rw [hsep, hempty, hsum, hproc, hskip]
    rfl

/-! ### Claim C3 -/

/-- Closed form of the error-printing loop: starting at index `i ≤ 10`
it prints the first `10 - i` entries and, when entries remain beyond
them, the single overflow summary line. -/
theorem printErrorsLoop_closed (total : Nat) (l : List String) :
    ∀ i, i ≤ 10 →
      printErrorsLoop total i l =
        (l.take (10 - i)).map (fun e => "  - " ++ e) ++
        (if 10 - i < l.length then ["  ... and " ++ decRepStr (total - 10) ++ " more errors"] else []) := by
  induction l with
  | nil => intro i h; simp [printErrorsLoop]
  | cons e rest ih =>
    intro i h
    rcases Nat.lt_or_ge i 10 with h10 | h10
    · have h1 : ¬ (10 ≤ i) := by omega
      have h2 : 10 - i = (10 - (i + 1)) + 1 := by omega
      rw [show printErrorsLoop total i (e :: rest) =
            ("  - " ++ e) :: printErrorsLoop total (i + 1) rest by
          simp [printErrorsLoop, h1],
        ih (i + 1) (by omega), h2, List.take_succ_cons, List.map_cons, List.cons_append]
      simp only [List.length_cons]
      have hiff : (10 - (i + 1)) + 1 < rest.length + 1 ↔ 10 - (i + 1) < rest.length := by omega
      simp only [hiff]
    · have hi : i = 10 := by omega
      subst hi
      simp [printErrorsLoop]

/-- C3: `PrintErrors` prints nothing for an empty list; otherwise it
prints the errors in order, capped at the first ten detailed entries,
with exactly one trailing summary line counting the remaining errors
when more than ten were collected. -/
theorem printErrors_capped (errors : List String) :
    PrintErrors errors =
      if errors.length = 0 then []
      else ["", "Errors encountered:"] ++
        (errors.take 10).map (fun e => "  - " ++ e) ++
        (if 10 < errors.length then
          ["  ... and " ++ decRepStr (errors.length - 10) ++ " more errors"] else []) ++
        [""] := by
  unfold PrintErrors
  by_cases h : errors.length = 0
  · simp [h]
  · rw [if_neg h, if_neg h, printErrorsLoop_closed errors.length errors 0 (by omega)]
    simp [List.append_assoc, Nat.sub_zero]

/-! ### Claim C9 -/

/-- Two sufficient fuels give the same decimal expansion. -/
theorem decRepAux_fuel : ∀ f1 f2 n, n < f1 → n < f2 → decRepAux f1 n = decRepAux f2 n := by
  intro f1
  induction f1 with
  | zero => intro f2 n h1 _; omega
  | succ f ih =>
    intro f2 n h1 h2
    cases f2 with
    | zero => omega
    | succ g =>
      simp only [decRepAux]
      by_cases h10 : n < 10
      · simp [h10]
      · simp only [h10, if_false]
        rw [ih g (n / 10) (by omega) (by omega)]

/-- Fuel-free recurrence for the decimal expansion. -/
theorem decRep_eq (n : Nat) :
    decRep n = if n < 10 then [digitChar n] else decRep (n / 10) ++ [digitChar (n % 10)] := by
  by_cases h10 : n < 10
  · simp [decRep, decRepAux, h10]
  · rw [if_neg h10]
    show decRepAux (n + 1) n = decRepAux (n / 10 + 1) (n / 10) ++ [digitChar (n % 10)]
    rw [show decRepAux (n + 1) n =
          if n < 10 then [digitChar n] else decRepAux n (n / 10) ++ [digitChar (n % 10)] from rfl,
      if_neg h10]
    rw [decRepAux_fuel n (n / 10 + 1) (n / 10) (by omega) (by omega)]

/-- Digit characters are never a comma. -/
theorem digitChar_ne_comma (d : Nat) : digitChar d ≠ ',' := by
  unfold digitChar
  split <;> decide

/-- The decimal expansion is never empty. -/
theorem decRep_ne_nil (n : Nat) : decRep n ≠ [] := by
  rw [decRep_eq]
  by_cases h10 : n < 10 <;> simp [h10]

/-- No comma occurs in a decimal expansion. -/
theorem comma_notMem_decRep (n : Nat) : ',' ∉ decRep n := by
  induction n using Nat.strong_induction_on with
  | _ n ih =>
    rw [decRep_eq]
    by_cases h10 : n < 10
    · simp [h10]
      exact (digitChar_ne_comma n).symm
    · simp only [h10, if_false, List.mem_append, List.mem_singleton]
      rintro (hc | hc)
      · exact ih (n / 10) (by omega) hc
      · exact digitChar_ne_comma (n % 10) hc.symm

/-- Decimal expansions of numbers below `10 ^ k` have at most `k`
digits. -/
theorem decRep_length_le : ∀ k n, 0 < k → n < 10 ^ k → (decRep n).length ≤ k := by
  intro k
  induction k with
  | zero => intro n h; omega
  | succ k ih =>
    intro n _ hn
    rw [decRep_eq]
    by_cases h10 : n < 10
    · simp [h10]
    · simp only [h10, if_false, List.length_append, List.length_singleton]
      have hk : 0 < k := by
        by_contra hk0
        have : k = 0 := by omega
        subst this
        simp at hn
        omega
      have hpow : 10 ^ (k + 1) = 10 ^ k * 10 := pow_succ 10 k
      have : n / 10 < 10 ^ k := by
        rw [hpow] at hn
        omega
      have := ih (n / 10) hk this
      omega

/-- Removing the inserted commas recovers the original characters. -/
theorem filter_insertCommasAux (total : Nat) :
    ∀ (s : List Char) (i : Nat), ',' ∉ s →
      (insertCommasAux total i s).filter (fun c => !(c == ',')) = s := by
  intro s
  induction s with
  | nil => intro i _; simp [insertCommasAux]
  | cons c cs ih =>
    intro i hc
    have hc1 : c ≠ ',' := fun h => hc (by simp [h])
    have hc2 : ',' ∉ cs := fun h => hc (List.mem_cons_of_mem _ h)
    simp only [insertCommasAux, List.filter_append, List.filter_cons]
    rw [ih (i + 1) hc2]
    by_cases hif : 0 < i ∧ (total - i) % 3 = 0 <;> simp [hif, hc1]

/-- Reference form of the comma layout: a comma is written after a
character exactly when a positive multiple of three characters
follows it. -/
def commaGroups : List Char → List Char
  | [] => []
  | c :: cs =>
    c :: (if cs.length % 3 = 0 ∧ cs ≠ [] then ',' :: commaGroups cs else commaGroups cs)

/-- The index-threading loop produces the reference comma layout. -/
theorem insertCommasAux_eq (s : List Char) :
    ∀ i total, i + s.length = total →
      insertCommasAux total i s =
        (if 0 < i ∧ s.length % 3 = 0 ∧ s ≠ [] then [','] else []) ++ commaGroups s := by
  induction s with
  | nil => intro i total _; simp [insertCommasAux, commaGroups]
  | cons c cs ih =>
    intro i total h
    have ht : total - i = cs.length + 1 := by
      simp only [List.length_cons] at h
      omega
    have hrec := ih (i + 1) total (by simp only [List.length_cons] at h ⊢; omega)
    simp only [insertCommasAux, commaGroups, ht, hrec, List.length_cons]
    by_cases h3 : cs.length % 3 = 0 ∧ cs ≠ []
    · rw [if_pos (show 0 < i + 1 ∧ cs.length % 3 = 0 ∧ cs ≠ [] from ⟨by omega, h3⟩),
          if_pos (show cs.length % 3 = 0 ∧ cs ≠ [] from h3)]
      by_cases hi : 0 < i ∧ (cs.length + 1) % 3 = 0
      · rw [if_pos (show 0 < i ∧ (cs.length + 1) % 3 = 0 from hi),
            if_pos (show 0 < i ∧ (cs.length + 1) % 3 = 0 ∧ c :: cs ≠ [] from ⟨hi.1, hi.2, by simp⟩)]
        simp
      · rw [if_neg (show ¬ (0 < i ∧ (cs.length + 1) % 3 = 0) from hi),
            if_neg (show ¬ (0 < i ∧ (cs.length + 1) % 3 = 0 ∧ c :: cs ≠ []) from
              fun hx => hi ⟨hx.1, hx.2.1⟩)]
        simp
    · rw [if_neg (show ¬ (0 < i + 1 ∧ cs.length % 3 = 0 ∧ cs ≠ []) from fun hx => h3 hx.2),
          if_neg (show ¬ (cs.length % 3 = 0 ∧ cs ≠ []) from h3)]
      by_cases hi : 0 < i ∧ (cs.length + 1) % 3 = 0
      · rw [if_pos (show 0 < i ∧ (cs.length + 1) % 3 = 0 from hi),
            if_pos (show 0 < i ∧ (cs.length + 1) % 3 = 0 ∧ c :: cs ≠ [] from ⟨hi.1, hi.2, by simp⟩)]
        simp
      · rw [if_neg (show ¬ (0 < i ∧ (cs.length + 1) % 3 = 0) from hi),
            if_neg (show ¬ (0 < i ∧ (cs.length + 1) % 3 = 0 ∧ c :: cs ≠ []) from
              fun hx => hi ⟨hx.1, hx.2.1⟩)]
        simp

/-- `insertCommas` agrees with the reference comma layout. -/
theorem insertCommas_eq_commaGroups (s : List Char) : insertCommas s = commaGroups s := by
  unfold insertCommas
  rw [insertCommasAux_eq s 0 s.length (Nat.zero_add _)]
  simp

/-- Splitting the rendered characters at commas, the embedding of the
claim's notion of the digit groups between commas. -/
def splitGroups : List Char → List (List Char)
  | [] => [[]]
  | c :: cs =>
    if c = ',' then [] :: splitGroups cs
    else
      match splitGroups cs with
      | [] => [[c]]
      | g :: gs => (c :: g) :: gs

/-- Splitting always yields at least one group. -/
theorem splitGroups_ne_nil : ∀ s, splitGroups s ≠ [] := by
  intro s
  induction s with
  | nil => simp [splitGroups]
  | cons c cs ih =>
    simp only [splitGroups]
    by_cases hc : c = ','
    · simp [hc]
    · simp only [hc, if_false]
      cases h : splitGroups cs with
      | nil => simp
      | cons g gs => simp

/-- A comma-free string is a single group. -/
theorem splitGroups_no_comma : ∀ s : List Char, ',' ∉ s → splitGroups s = [s] := by
  intro s
  induction s with
  | nil => intro _; rfl
  | cons c cs ih =>
    intro hc
    have hc1 : ¬ (c = ',') := fun h => hc (by simp [h])
    have hc2 : ',' ∉ cs := fun h => hc (List.mem_cons_of_mem _ h)
    simp only [splitGroups, hc1, if_false, ih hc2]

/-- The comma layout is nonempty on nonempty input. -/
theorem commaGroups_ne_nil (s : List Char) (h : s ≠ []) : commaGroups s ≠ [] := by
  cases s with
  | nil => exact absurd rfl h
  | cons c cs => simp [commaGroups]

/-- Structure of the groups cut by the inserted commas: they concatenate
back to the original characters, the leading group holds
`(length - 1) % 3 + 1` characters, and every later group holds exactly
three — the groups of three counted from the rightmost character. -/
theorem splitGroups_commaGroups : ∀ s : List Char, ',' ∉ s → s ≠ [] →
    (splitGroups (commaGroups s)).flatten = s ∧
    ((splitGroups (commaGroups s)).headI).length = (s.length - 1) % 3 + 1 ∧
    (∀ g ∈ (splitGroups (commaGroups s)).tail, g.length = 3) := by
  intro s
  induction s with
  | nil => intro _ h; exact absurd rfl h
  | cons c cs ih =>
    intro hc _
    have hc' : ',' ∉ cs := fun h => hc (List.mem_cons_of_mem _ h)
    have hcne : ¬ (c = ',') := fun h => hc (by simp [h])
    by_cases hcs : cs = []
    · subst hcs
      simp [commaGroups, splitGroups, hcne]
    · have ihc := ih hc' hcs
      have hlen1 : 1 ≤ cs.length := by
        cases cs with
        | nil => exact absurd rfl hcs
        | cons a as => simp
      obtain ⟨g, gs, hsplit⟩ : ∃ g gs, splitGroups (commaGroups cs) = g :: gs := by
        cases hx : splitGroups (commaGroups cs) with
        | nil => exact absurd hx (splitGroups_ne_nil _)
        | cons a b => exact ⟨a, b, rfl⟩
      by_cases h3 : cs.length % 3 = 0
      · have hG : commaGroups (c :: cs) = c :: ',' :: commaGroups cs := by
          simp [commaGroups, h3, hcs]
        have hS : splitGroups (c :: ',' :: commaGroups cs) =
            [c] :: splitGroups (commaGroups cs) := by
          simp [splitGroups, hcne]
        rw [hG, hS]
        refine ⟨?_, ?_, ?_⟩
        · simp [ihc.1]
        · simp only [List.headI]
          have : (c :: cs).length - 1 = cs.length := by simp
          rw [this]
          simp only [List.length_singleton]
          omega
        · intro g' hg'
          simp only [List.tail_cons] at hg'
          rw [hsplit] at hg'
          rcases List.mem_cons.mp hg' with h | h
          · subst h
            have hhead := ihc.2.1
            rw [hsplit] at hhead
            simp only [List.headI] at hhead
            have : cs.length % 3 = 0 ∧ 1 ≤ cs.length := ⟨h3, hlen1⟩
            omega
          · exact ihc.2.2 g' (by rw [hsplit]; exact h)
      · have hG : commaGroups (c :: cs) = c :: commaGroups cs := by
          simp [commaGroups, h3]
        have hS : splitGroups (c :: commaGroups cs) = (c :: g) :: gs := by
          simp [splitGroups, hcne, hsplit]
        rw [hG, hS]
        refine ⟨?_, ?_, ?_⟩
        · have := ihc.1
          rw [hsplit] at this
          simp only [List.flatten_cons] at this ⊢
          simp [← this]
        · have hhead := ihc.2.1
          rw [hsplit] at hhead
          simp only [List.headI] at hhead ⊢
          simp only [List.length_cons]
          have h1 : cs.length % 3 ≠ 0 := h3
          omega
        · intro g' hg'
          simp only [List.tail_cons] at hg'
          exact ihc.2.2 g' (by rw [hsplit]; simp [hg'])

/-- C9: `FormatNumber` returns the decimal representation with commas
inserted so that, counted from the rightmost digit, every group between
commas has exactly three digits while the leading group has one to
three (in particular no comma leads); for `n < 1000` the plain decimal
string is returned; and removing all commas recovers the decimal
representation of `n`. -/
theorem formatNumber_grouping (n : Nat) :
    (n < 1000 → FormatNumber n = String.mk (decRep n)) ∧
    (FormatNumber n).data.filter (fun c => !(c == ',')) = decRep n ∧
    (splitGroups (FormatNumber n).data).flatten = decRep n ∧
    ((splitGroups (FormatNumber n).data).headI).length = ((decRep n).length - 1) % 3 + 1 ∧
    1 ≤ ((splitGroups (FormatNumber n).data).headI).length ∧
    ((splitGroups (FormatNumber n).data).headI).length ≤ 3 ∧
    (∀ g ∈ (splitGroups (FormatNumber n).data).tail, g.length = 3) := by
  have hnc : ',' ∉ decRep n := comma_notMem_decRep n
  have hne : decRep n ≠ [] := decRep_ne_nil n
  have hlenpos : 1 ≤ (decRep n).length := by
    cases hx : decRep n with
    | nil => exact absurd hx hne
    | cons a b => simp
  by_cases hn : n < 1000
  · have hdata : (FormatNumber n).data = decRep n := by
      unfold FormatNumber
      rw [if_pos hn]
    have hsplit : splitGroups (FormatNumber n).data = [decRep n] := by
      rw [hdata]
      exact splitGroups_no_comma _ hnc
    have hlen3 : (decRep n).length ≤ 3 := by
      refine decRep_length_le 3 n (by norm_num) ?_
      norm_num
      omega
    refine ⟨fun _ => ?_, ?_, ?_, ?_, ?_, ?_, ?_⟩
    · unfold FormatNumber
      rw [if_pos hn]
    · rw [hdata]
      refine List.filter_eq_self.mpr ?_
      intro c hcmem
      have hcne : c ≠ ',' := fun h => hnc (h ▸ hcmem)
      simp [hcne]
    · rw [hsplit]
      simp
    · rw [hsplit]
      simp only [List.headI]
      omega
    · rw [hsplit]
      simp only [List.headI]
      omega
    · rw [hsplit]
      simp only [List.headI]
      omega
    · rw [hsplit]
      simp
  · have hdata : (FormatNumber n).data = commaGroups (decRep n) := by
      unfold FormatNumber
      rw [if_neg hn, insertCommas_eq_commaGroups]
    have hmain := splitGroups_commaGroups (decRep n) hnc hne
    refine ⟨fun hx => absurd hx hn, ?_, ?_, ?_, ?_, ?_, ?_⟩
    · rw [show (FormatNumber n).data = insertCommasAux (decRep n).length 0 (decRep n) by
        unfold FormatNumber
        rw [if_neg hn]
        rfl]
      exact filter_insertCommasAux (decRep n).length (decRep n) 0 hnc
    · rw [hdata]
      exact hmain.1
    · rw [hdata]
      exact hmain.2.1
    · rw [hdata, hmain.2.1]
      omega
    · rw [hdata, hmain.2.1]
      omega
    · rw [hdata]
      exact hmain.2.2

/-- Witness for C9: a small count is printed plainly, and for a large
one the commas filter back out to the decimal digits with every group
after the first of size three. -/
theorem formatNumber_grouping_witness :
    (12 < 1000 ∧ FormatNumber 12 = String.mk (decRep 12)) ∧
    (FormatNumber 1234567).data.filter (fun c => !(c == ',')) = decRep 1234567 ∧
    (∀ g ∈ (splitGroups (FormatNumber 1234567).data).tail, g.length = 3) := by
  refine ⟨⟨by decide, (formatNumber_grouping 12).1 (by decide)⟩,
    (formatNumber_grouping 1234567).2.1,
    (formatNumber_grouping 1234567).2.2.2.2.2.2⟩

/-! ### Claim C4 -/

/-- Each classified line adds one to exactly one of the three counters,
so the three counts sum to the number of lines. -/
theorem countLinesFrom_total (d : LanguageDescriptor) :
    ∀ (lines : List (List Char)) (st : ClassifierState),
      (countLinesFrom d st lines).1 + (countLinesFrom d st lines).2.1 +
        (countLinesFrom d st lines).2.2 = lines.length := by
  intro lines
  induction lines with
  | nil => intro st; simp [countLinesFrom]
  | cons line rest ih =>
    intro st
    have ihr := ih ((classifyLine d st line).2)
    simp only [countLinesFrom, List.length_cons]
    cases hx : (classifyLine d st line).1 <;> simp only [hx] <;> omega

/-- Merging a record with the sum property preserves the sum property of
the bucket. -/
theorem foldl_mergeRecord_inv :
    ∀ (recs : List FileRecord), (∀ r ∈ recs, recordInv r) →
      ∀ s : LanguageStats, statsInv s → statsInv (recs.foldl mergeRecord s) := by
  intro recs
  induction recs with
  | nil => intro _ s hs; exact hs
  | cons r rest ih =>
    intro h s hs
    simp only [List.foldl_cons]
    refine ih (fun x hx => h x (List.mem_cons_of_mem _ hx)) _ ?_
    have hr : recordInv r := h r (List.mem_cons_self _ _)
    unfold statsInv mergeRecord at *
    unfold recordInv at hr
    simp only []
    omega

/-- C4: every record the file counter produces satisfies
`totalLines = blankLines + commentLines + codeLines`, and every
aggregate built from records with that property — the grand total and
each per-language bucket, after any prefix of the scan's record
stream — satisfies the same equation. -/
theorem counts_sum_invariant (d : LanguageDescriptor) (path : String)
    (lines : List (List Char)) (recs : List FileRecord)
    (h : ∀ r ∈ recs, recordInv r) :
    recordInv (countFile d path lines) ∧
    (∀ (n : Nat) (lang : String), statsInv (aggregate lang (recs.take n))) ∧
    (∀ (n : Nat) (lang : String),
      statsInv (aggregate lang ((recs.take n).filter (fun r => r.language == lang)))) := by
  refine ⟨?_, ?_, ?_⟩
  · have hsum := countLinesFrom_total d lines initialState
    dsimp only [recordInv, countFile]
    omega
  · intro n lang
    refine foldl_mergeRecord_inv _ ?_ _ ?_
    · intro r hr
      exact h r (List.take_subset n recs hr)
    · dsimp only [statsInv, emptyStats]
  · intro n lang
    refine foldl_mergeRecord_inv _ ?_ _ ?_
    · intro r hr
      exact h r (List.take_subset n recs (List.mem_of_mem_filter hr))
    · dsimp only [statsInv, emptyStats]

/-- Witness for C4: a concrete three-line C file and a one-record
stream. -/
theorem counts_sum_invariant_witness :
    (∀ r ∈ [countFile cLike "a.c" ["int x;".data]], recordInv r) ∧
    recordInv (countFile cLike "b.c" ["// c".data, "".data, "int x;".data]) ∧
    statsInv (aggregate "C" ([countFile cLike "a.c" ["int x;".data]].take 1)) := by
  have hrec : ∀ r ∈ [countFile cLike "a.c" ["int x;".data]], recordInv r := by
    intro r hr
    simp only [List.mem_singleton] at hr
    subst hr
    unfold recordInv
    decide
  have h := counts_sum_invariant cLike "b.c" ["// c".data, "".data, "int x;".data]
    [countFile cLike "a.c" ["int x;".data]] hrec
  exact ⟨hrec, h.1, h.2.1 1 "C"⟩

/-! ### Claim C5 -/

/-- Merging two records into a bucket commutes. -/
theorem mergeRecord_comm (s : LanguageStats) (a b : FileRecord) :
    mergeRecord (mergeRecord s a) b = mergeRecord (mergeRecord s b) a := by
  unfold mergeRecord
  simp only [LanguageStats.mk.injEq, true_and]
  omega

/-- Folding the merge over any permutation of the record stream gives
the same bucket. -/
theorem foldl_mergeRecord_perm {l1 l2 : List FileRecord} (h : l1.Perm l2) :
    ∀ s : LanguageStats, l1.foldl mergeRecord s = l2.foldl mergeRecord s := by
  induction h with
  | nil => intro s; rfl
  | cons x _ ih =>
    intro s
    simp only [List.foldl_cons]
    exact ih _
  | swap x y l =>
    intro s
    simp only [List.foldl_cons]
    rw [mergeRecord_comm]
  | trans _ _ ih1 ih2 =>
    intro s
    rw [ih1, ih2]

/-- C5: the final aggregate depends only on the set of per-file records,
not on the order in which the workers deliver them — for any two arrival
orders that are permutations of each other (as produced by any worker
count and any scheduling), the grand total and every per-language bucket
coincide. -/
theorem aggregate_order_independent (files arrival : List FileRecord)
    (h : arrival.Perm files) :
    (∀ lang : String, aggregate lang arrival = aggregate lang files) ∧
    (∀ lang : String,
      aggregate lang (arrival.filter (fun r => r.language == lang)) =
        aggregate lang (files.filter (fun r => r.language == lang))) := by
  constructor
  · intro lang
    exact foldl_mergeRecord_perm h _
  · intro lang
    exact foldl_mergeRecord_perm (h.filter _) _

/-- Witness for C5: two concrete records delivered in either order give
the same grand total. -/
theorem aggregate_order_independent_witness :
    ([⟨"b.go", "Go", 0, 1, 2, 3⟩, ⟨"a.c", "C", 1, 1, 1, 3⟩] : List FileRecord).Perm
      [⟨"a.c", "C", 1, 1, 1, 3⟩, ⟨"b.go", "Go", 0, 1, 2, 3⟩] ∧
    aggregate "Total" ([⟨"b.go", "Go", 0, 1, 2, 3⟩, ⟨"a.c", "C", 1, 1, 1, 3⟩] : List FileRecord) =
      aggregate "Total" [⟨"a.c", "C", 1, 1, 1, 3⟩, ⟨"b.go", "Go", 0, 1, 2, 3⟩] := by
  have hp : ([⟨"b.go", "Go", 0, 1, 2, 3⟩, ⟨"a.c", "C", 1, 1, 1, 3⟩] : List FileRecord).Perm
      [⟨"a.c", "C", 1, 1, 1, 3⟩, ⟨"b.go", "Go", 0, 1, 2, 3⟩] :=
    List.Perm.swap _ _ _
  exact ⟨hp, (aggregate_order_independent _ _ hp).1 "Total"⟩

/-! ### Claims C6 and C7 -/

/-- Comment content, once seen on a line, is never unseen: scanning any
remainder with the comment flag already set returns a set flag whatever
code content follows. -/
theorem scanLine_sawC_mono (d : LanguageDescriptor) :
    ∀ (fuel : Nat) (st : ClassifierState) (cs : List Char),
      (scanLine d fuel st true cs).1 = true := by
  intro fuel
  induction fuel with
  | zero => intro st cs; rfl
  | succ f ih =>
    intro st cs
    cases cs with
    | nil => rfl
    | cons c rest =>
      simp only [scanLine]
      repeat' split
      all_goals first | rfl | exact ih _ _

/-- Inside a string region whose closing quote does not occur in the
remaining characters, scanning is inert for every descriptor: the
comment flag and the whole state come back unchanged, so no comment
marker among those characters starts a comment. -/
theorem scanLine_inString_inert (d : LanguageDescriptor) :
    ∀ (fuel : Nat) (cs : List Char) (st : ClassifierState) (sawC : Bool) (q : Char),
      st.blockDepth = 0 → st.inString = true → st.stringQuote = some q → q ∉ cs →
      scanLine d fuel st sawC cs = (sawC, st) := by
  intro fuel
  induction fuel with
  | zero => intro cs st sawC q _ _ _ _; rfl
  | succ f ih =>
    intro cs st sawC q hbd hin hq hnot
    cases cs with
    | nil => rfl
    | cons c rest =>
      have hcq : c ≠ q := fun h => hnot (h ▸ List.mem_cons_self _ _)
      simp only [scanLine]
      rw [if_neg (by omega : ¬ 0 < st.blockDepth), if_pos hin]
      by_cases he : d.escapeChar = some c
      · rw [if_pos he]
        cases rest with
        | nil => rfl
        | cons r rest' =>
          exact ih rest' st sawC q hbd hin hq (fun h => hnot (by simp [h]))
      · rw [if_neg he,
          if_neg (show ¬ st.stringQuote = some c by
            rw [hq]
            exact fun hh => hcq (Option.some.inj hh).symm)]
        exact ih rest st sawC q hbd hin hq (fun h => hnot (List.mem_cons_of_mem _ h))

/-- C6: for every language descriptor with string quotes and comment
markers, a comment marker occurring inside a string region does not
start a comment — scanning any line remainder that stays inside the
region returns flag and state unchanged, and a single in-string
character that is neither the region's quote nor the escape character
(for instance the first character of a marker) is consumed with no
effect at all; in particular, for the C-like descriptor the line
`x = "http://example.com"` classifies as Code, not Comment, and leaves
the classifier back in the initial state. -/
theorem string_embedded_marker_is_code (d : LanguageDescriptor) (fuel : Nat)
    (cs rest : List Char) (st : ClassifierState) (sawC : Bool) (q c : Char)
    (hbd : st.blockDepth = 0) (hin : st.inString = true) :
    (st.stringQuote = some q → q ∉ cs → scanLine d fuel st sawC cs = (sawC, st)) ∧
    (d.escapeChar ≠ some c → st.stringQuote ≠ some c →
      scanLine d (fuel + 1) st sawC (c :: rest) = scanLine d fuel st sawC rest) ∧
    (classifyLine cLike initialState ("x = \"http://example.com\"".data)).1 = LineClass.Code ∧
    (classifyLine cLike initialState ("x = \"http://example.com\"".data)).2 = initialState := by
  refine ⟨fun hq hnot => scanLine_inString_inert d fuel cs st sawC q hbd hin hq hnot,
    fun hesc hq => ?_, by decide, by decide⟩
  simp only [scanLine]
  rw [if_neg (by omega : ¬ 0 < st.blockDepth), if_pos hin, if_neg hesc, if_neg hq]

/-- Witness for C6: inside an open double-quoted string of the C-like
language, the fragment `//x` scans away with no comment started and no
state change, and the concrete line is Code. -/
theorem string_embedded_marker_is_code_witness :
    scanLine cLike 3 ⟨0, none, true, some '"'⟩ false ("//x".data) =
      (false, ⟨0, none, true, some '"'⟩) ∧
    (classifyLine cLike initialState ("x = \"http://example.com\"".data)).1 = LineClass.Code := by
  have h := string_embedded_marker_is_code cLike 3 ("//x".data) ("x".data)
    ⟨0, none, true, some '"'⟩ false '"' '/' rfl rfl
  exact ⟨h.1 rfl (by decide), h.2.2.1⟩

/-- C7: comment dominance for every descriptor, state and line — once
any comment content is seen the scan's comment flag stays set whatever
code follows (first conjunct); reaching a single-line marker outside
strings and block comments flags the line no matter what code was
scanned before it (second conjunct); and every non-blank line whose
scan saw comment content classifies as Comment (third conjunct) — so a
line containing both code and comment content is Comment; in
particular `x := 1 // set x` classifies as Comment for the C-like
descriptor. -/
theorem mixed_line_is_comment (d : LanguageDescriptor) (st : ClassifierState)
    (line rest : List Char) (fuel : Nat) (sawC : Bool) (c : Char) :
    ((scanLine d fuel st true line).1 = true) ∧
    (st.blockDepth = 0 → st.inString = false → d.escapeChar ≠ some c →
      hasSingleMarker d (c :: rest) = true →
      scanLine d (fuel + 1) st sawC (c :: rest) = (true, st)) ∧
    (line.all Char.isWhitespace = false →
      (scanLine d line.length st (0 < st.blockDepth) line).1 = true →
      (classifyLine d st line).1 = LineClass.Comment) ∧
    (classifyLine cLike initialState ("x := 1 // set x".data)).1 = LineClass.Comment := by
  refine ⟨scanLine_sawC_mono d fuel st line, fun hbd hin hesc hm => ?_,
    fun hws hflag => ?_, by decide⟩
  · simp only [scanLine]
    rw [if_neg (by omega : ¬ 0 < st.blockDepth), if_neg (by simp [hin]), if_neg hesc, if_pos hm]
  · unfold classifyLine
    rw [if_neg (by simp [hws])]
    simp only [hflag, if_true]

/-- Witness for C7: from the initial state the marker suffix of
`x := 1 // set x` flags the line at once, and the full line classifies
as Comment. -/
theorem mixed_line_is_comment_witness :
    scanLine cLike 9 initialState false ("// set x".data) = (true, initialState) ∧
    (classifyLine cLike initialState ("x := 1 // set x".data)).1 = LineClass.Comment := by
  have h := mixed_line_is_comment cLike initialState ("x := 1 // set x".data)
    ("/ set x".data) 8 false '/'
  exact ⟨h.2.1 rfl rfl (by decide) (by decide), h.2.2.2⟩

/-! ### Claim C10 -/

/-- The sort of `sortLanguagesByCode` yields rows in non-increasing
order of code lines. -/
theorem sortLanguagesByCode_sorted (entries : List LanguageStats) :
    (sortLanguagesByCode entries).Sorted (fun a b => b.CodeLines ≤ a.CodeLines) := by
  have h := @List.sorted_mergeSort LanguageStats (fun a b => !(lessByCode b a))
    (fun a b c h1 h2 => by
      simp only [lessByCode, Bool.not_eq_true', decide_eq_false_iff_not, not_lt] at h1 h2 ⊢
      omega)
    (fun a b => by
      simp only [lessByCode, Bool.or_eq_true, Bool.not_eq_true', decide_eq_false_iff_not, not_lt]
      omega)
    entries
  refine List.Pairwise.imp ?_ h
  intro a b hab
  simp only [lessByCode, Bool.not_eq_true', decide_eq_false_iff_not, not_lt] at hab
  exact hab

/-- The inlined sort of `PrintByFiles` yields rows in non-increasing
order of file count. -/
theorem sortByFilesList_sorted (entries : List LanguageStats) :
    (sortByFilesList entries).Sorted (fun a b => b.FileCount ≤ a.FileCount) := by
  have h := @List.sorted_mergeSort LanguageStats (fun a b => !(lessByFiles b a))
    (fun a b c h1 h2 => by
      simp only [lessByFiles, Bool.not_eq_true', decide_eq_false_iff_not, not_lt] at h1 h2 ⊢
      omega)
    (fun a b => by
      simp only [lessByFiles, Bool.or_eq_true, Bool.not_eq_true', decide_eq_false_iff_not, not_lt]
      omega)
    entries
  refine List.Pairwise.imp ?_ h
  intro a b hab
  simp only [lessByFiles, Bool.not_eq_true', decide_eq_false_iff_not, not_lt] at hab
  exact hab

/-- C10: every table and JSON output lists languages sorted —
`PrintResults`, `PrintResultsFormatted` and `PrintJSON` emit the
language entries in non-increasing order of `CodeLines`, and
`PrintByFiles` in non-increasing order of `FileCount`, for every map of
language statistics (modelled as its entry list in arbitrary iteration
order); each sorted row list is a permutation of the input entries. -/
theorem output_language_order (entries : List LanguageStats) (total : LanguageStats)
    (p s e : Nat) :
    (sortLanguagesByCode entries).Sorted (fun a b => b.CodeLines ≤ a.CodeLines) ∧
    (sortLanguagesByCode entries).Perm entries ∧
    (sortByFilesList entries).Sorted (fun a b => b.FileCount ≤ a.FileCount) ∧
    (sortByFilesList entries).Perm entries ∧
    PrintResults entries total p s e =
      printHeader ++ (sortLanguagesByCode entries).map statsRow ++ [printSeparatorLine] ++
        [printRow "Total" total.FileCount total.BlankLines total.CommentLines total.CodeLines
          total.TotalLines] ++ printFooter p s e ∧
    PrintResultsFormatted entries total p s e =
      printHeader ++ (sortLanguagesByCode entries).map formattedRow ++ [printSeparatorLine] ++
        [padRight colLanguage "Total" ++ " " ++
          padLeft colFiles (FormatNumber total.FileCount) ++ " " ++
          padLeft colBlank (FormatNumber total.BlankLines) ++ " " ++
          padLeft colComment (FormatNumber total.CommentLines) ++ " " ++
          padLeft colCode (FormatNumber total.CodeLines) ++ " " ++
          padLeft colTotal (FormatNumber total.TotalLines)] ++ printFooter p s e ∧
    PrintJSON entries total =
      ["\x7b", "  \"languages\": \x7b"] ++
        ((sortLanguagesByCode entries).enum.map (fun q =>
          jsonRow q.2 (if q.1 = (sortLanguagesByCode entries).length - 1 then "" else ","))) ++
        ["  \x7d,",
         "  \"total\": \x7b\"files\": " ++ decRepStr total.FileCount ++
           ", \"blank\": " ++ decRepStr total.BlankLines ++
           ", \"comment\": " ++ decRepStr total.CommentLines ++
           ", \"code\": " ++ decRepStr total.CodeLines ++
           ", \"total\": " ++ decRepStr total.TotalLines ++ "\x7d",
         "\x7d"] ∧
    PrintByFiles entries total p s e =
      printHeader ++ (sortByFilesList entries).map statsRow ++ [printSeparatorLine] ++
        [printRow "Total" total.FileCount total.BlankLines total.CommentLines total.CodeLines
          total.TotalLines] ++ printFooter p s e := by
  refine ⟨sortLanguagesByCode_sorted entries, List.mergeSort_perm entries _,
    sortByFilesList_sorted entries, List.mergeSort_perm entries _, rfl, rfl, rfl, rfl⟩
